import Mathlib

/-!
Verification development for the python-worker request/response correlation
layer of the vscode extension. The embedding below follows the TypeScript
source: the class PythonRequestManager (pending-request map, request ids,
handleResponse, sendRequest and its timeout callback), the module-level
worker lifecycle functions (startPythonProcess, getRequestManager,
deactivate, the exit observer), and the legacy listener-per-call path
(sendToPython in the older extension entry file).

Machine conventions: JavaScript Map with integer keys is modelled as a list
of records looked up by key; promise settlement is modelled as an explicit
settlement log, one entry per resolve or reject that reaches a promise;
Node timers are modelled by timer-fire events that have an effect exactly
while the timer is armed, and a timer is armed exactly while its call sits
in the pending map, because every removal from the map in the source is
paired with clearTimeout and the timeout callback itself removes the entry.
-/

/-- JSON values as produced by JSON.parse, restricted to the grammar
fragment the wire protocol uses: objects, arrays, strings with the basic
escapes, integer numerals, booleans and null. -/
inductive JVal where
  | jnull : JVal
  | jbool : Bool → JVal
  | jnum : Int → JVal
  | jstr : String → JVal
  | jarr : List JVal → JVal
  | jobj : List (String × JVal) → JVal
deriving Repr

/-- JavaScript truthiness of a JSON value: null, false, 0 and the empty
string are falsy, every object and array is truthy. -/
def truthy : JVal → Bool
  | JVal.jnull => false
  | JVal.jbool b => b
  | JVal.jnum n => !(n == 0)
  | JVal.jstr s => !(s == "")
  | JVal.jarr _ => true
  | JVal.jobj _ => true

/-- Property access on a parsed value, as in response.id: a field of an
object when present (the last occurrence wins, as in JSON.parse), and
undefined (none) on every non-object or absent field. -/
def getField (v : JVal) (k : String) : Option JVal :=
  match v with
  | JVal.jobj fields => ((fields.filter (fun f => f.1 == k)).getLast?).map (fun f => f.2)
  | _ => none

/-- Drop leading JSON whitespace. -/
def skipWs : List Char → List Char
  | [] => []
  | c :: cs => if c = ' ' ∨ c = '\n' ∨ c = '\t' ∨ c = '\r' then skipWs cs else c :: cs

/-- The characters a backslash escape denotes; the uXXXX escape is outside
the modelled fragment. -/
def escChar (e : Char) : Option Char :=
  if e = 'n' then some '\n'
  else if e = 't' then some '\t'
  else if e = 'r' then some '\r'
  else if e = '"' then some '"'
  else if e = '\\' then some '\\'
  else if e = '/' then some '/'
  else if e = 'b' then some (Char.ofNat 8)
  else if e = 'f' then some (Char.ofNat 12)
  else none

/-- Parse the body of a JSON string after its opening quote, returning the
decoded characters and the input following the closing quote. -/
def parseStringBody : List Char → Option (List Char × List Char)
  | [] => none
  | c :: cs =>
    if c = '"' then some ([], cs)
    else if c = '\\' then
      match cs with
      | [] => none
      | e :: cs2 =>
        match escChar e with
        | none => none
        | some ec => (parseStringBody cs2).map (fun r => (ec :: r.1, r.2))
    else (parseStringBody cs).map (fun r => (c :: r.1, r.2))

/-- Value of a list of decimal digit characters. -/
def digitsToNat (ds : List Char) : Nat :=
  ds.foldl (fun acc c => acc * 10 + (c.toNat - 48)) 0

/-- Parse a nonempty run of digits as a natural number. -/
def parseNatNum (cs : List Char) : Option (Nat × List Char) :=
  let p := cs.span (fun c => c.isDigit)
  if p.1.isEmpty then none else some (digitsToNat p.1, p.2)

/-- Parse a JSON integer numeral, with optional leading minus; fractional
and exponent forms are outside the modelled fragment. -/
def parseNumber (cs : List Char) : Option (Int × List Char) :=
  match cs with
  | '-' :: rest => (parseNatNum rest).map (fun r => (-(r.1 : Int), r.2))
  | _ => (parseNatNum cs).map (fun r => ((r.1 : Int), r.2))

/-- Require a fixed sequence of characters. -/
def expectChars : List Char → List Char → Option (List Char)
  | [], cs => some cs
  | _ :: _, [] => none
  | e :: es, c :: cs => if c = e then expectChars es cs else none

mutual

/-- Parse one JSON value; the fuel bounds nesting depth and is at least the
input length at the top call, so it never runs out on a real parse. -/
def parseVal : Nat → List Char → Option (JVal × List Char)
  | 0, _ => none
  | Nat.succ fuel, cs =>
    match skipWs cs with
    | [] => none
    | c :: rest =>
      if c = '\x7b' then
        match skipWs rest with
        | '\x7d' :: rest2 => some (JVal.jobj [], rest2)
        | rest2 => (parseMembers fuel rest2).map (fun r => (JVal.jobj r.1, r.2))
      else if c = '[' then
        match skipWs rest with
        | ']' :: rest2 => some (JVal.jarr [], rest2)
        | rest2 => (parseElems fuel rest2).map (fun r => (JVal.jarr r.1, r.2))
      else if c = '"' then
        (parseStringBody rest).map (fun r => (JVal.jstr (String.mk r.1), r.2))
      else if c = 't' then
        (expectChars ['r', 'u', 'e'] rest).map (fun r => (JVal.jbool true, r))
      else if c = 'f' then
        (expectChars ['a', 'l', 's', 'e'] rest).map (fun r => (JVal.jbool false, r))
      else if c = 'n' then
        (expectChars ['u', 'l', 'l'] rest).map (fun r => (JVal.jnull, r))
      else
        (parseNumber (c :: rest)).map (fun r => (JVal.jnum r.1, r.2))

/-- Parse the members of an object after its opening brace (nonempty case),
up to and including the closing brace. -/
def parseMembers : Nat → List Char → Option (List (String × JVal) × List Char)
  | 0, _ => none
  | Nat.succ fuel, cs =>
    match skipWs cs with
    | '"' :: rest =>
      match parseStringBody rest with
      | none => none
      | some (k, rest2) =>
        match skipWs rest2 with
        | ':' :: rest3 =>
          match parseVal fuel rest3 with
          | none => none
          | some (v, rest4) =>
            match skipWs rest4 with
            | ',' :: rest5 =>
              (parseMembers fuel rest5).map (fun r => ((String.mk k, v) :: r.1, r.2))
            | '\x7d' :: rest5 => some ([(String.mk k, v)], rest5)
            | _ => none
        | _ => none
    | _ => none

/-- Parse the elements of an array after its opening bracket (nonempty
case), up to and including the closing bracket. -/
def parseElems : Nat → List Char → Option (List JVal × List Char)
  | 0, _ => none
  | Nat.succ fuel, cs =>
    match parseVal fuel cs with
    | none => none
    | some (v, rest) =>
      match skipWs rest with
      | ',' :: rest2 => (parseElems fuel rest2).map (fun r => (v :: r.1, r.2))
      | ']' :: rest2 => some ([v], rest2)
      | _ => none

end

/-- JSON.parse on a whole chunk: one value, with surrounding whitespace
allowed and nothing else; none models the thrown SyntaxError. -/
def jsonParse (s : String) : Option JVal :=
  match parseVal (s.length + 1) s.toList with
  | some (v, rest) => if (skipWs rest).isEmpty then some v else none
  | none => none

/-- One entry of the pendingRequests map: the request id, the method and
timeout captured by the timer closure, standing for the stored record
(id, resolve, reject, timeout handle) of the source. -/
structure PendingRequest where
  id : Int
  method : String
  timeoutMs : Int
deriving DecidableEq, Repr

/-- The mutable state of the PythonRequestManager class: the Map of
pending requests (as a list in insertion order, keyed by id) and the next
request id, which the constructor starts at 1. -/
structure PythonRequestManager where
  pendingRequests : List PendingRequest
  requestId : Int
deriving DecidableEq, Repr

/-- A freshly constructed PythonRequestManager: empty pending map,
requestId 1. -/
def PythonRequestManager.init : PythonRequestManager :=
  { pendingRequests := [], requestId := 1 }

/-- The ways a call promise of the manager can settle: the five
terminal outcomes of the source, one constructor each. resolve with the
result value; reject with the error payload; reject with the literal
string for a response having neither usable field; reject with the timeout
error naming id, method and duration; reject because stdin was missing. -/
inductive Outcome where
  | result : JVal → Outcome
  | rpcError : JVal → Outcome
  | malformed : Outcome
  | timeout : Int → String → Int → Outcome
  | transport : Outcome
deriving Repr

/-- The ids of the currently pending calls. -/
def pendIds (st : PythonRequestManager) : List Int :=
  st.pendingRequests.map (fun p => p.id)

/-- The part of handleResponse after JSON.parse succeeded: look the parsed
value's id field up in the pending map; on a hit, clear the timer (modelled
by removal, since armed timers and map membership coincide), delete the
entry and settle — resolve if a result field is present, reject with the
error payload if the error field is truthy, reject with the fixed string
otherwise. On a miss (orphan), warn and change nothing. -/
def dispatchResponse (st : PythonRequestManager) (response : JVal) :
    PythonRequestManager × List (Int × Outcome) :=
  match getField response "id" with
  | some (JVal.jnum n) =>
    match st.pendingRequests.find? (fun p => p.id == n) with
    | some pr =>
      let st2 : PythonRequestManager :=
        { st with pendingRequests := st.pendingRequests.filter (fun q => !(q.id == n)) }
      match getField response "result" with
      | some v => (st2, [(pr.id, Outcome.result v)])
      | none =>
        match getField response "error" with
        | some e =>
          if truthy e then (st2, [(pr.id, Outcome.rpcError e)])
          else (st2, [(pr.id, Outcome.malformed)])
        | none => (st2, [(pr.id, Outcome.malformed)])
    | none => (st, [])
  | _ => (st, [])

/-- handleResponse: JSON.parse the whole chunk; a parse failure is caught,
logged and dropped; a parsed value goes to the lookup-and-settle step.
The source keeps no buffer between chunks: each delivery is parsed alone. -/
def handleResponse (st : PythonRequestManager) (data : String) :
    PythonRequestManager × List (Int × Outcome) :=
  match jsonParse data with
  | none => (st, [])
  | some response => dispatchResponse st response

/-- The timeout callback of sendRequest for the call with this id, guarded
by the timer being armed: the source pairs every map removal with
clearTimeout, so a timer is armed exactly while its id is in the map. On
fire it deletes the entry and rejects with the timeout error carrying the
id, the method and the configured duration. -/
def fireTimeout (st : PythonRequestManager) (id : Int) :
    PythonRequestManager × List (Int × Outcome) :=
  match st.pendingRequests.find? (fun p => p.id == id) with
  | some pr =>
    ({ st with pendingRequests := st.pendingRequests.filter (fun q => !(q.id == id)) },
     [(id, Outcome.timeout id pr.method pr.timeoutMs)])
  | none => (st, [])

/-- sendRequest: allocate id := requestId++, arm the timer and store the
pending record, then write the encoded envelope to stdin. When stdin is
missing the source clears the timer, deletes the record again and rejects
at once; the net state is the record never being added. The fate of the
write itself (writeOk) is not inspected anywhere: the source passes no
callback to write and installs no error handler on stdin. Returns the new
state, the allocated id and the settlements performed synchronously. -/
def sendRequest (st : PythonRequestManager) (method : String) (timeoutMs : Int)
    (stdinAvailable : Bool) (writeOk : Bool) :
    PythonRequestManager × Int × List (Int × Outcome) :=
  let id := st.requestId
  let st1 : PythonRequestManager := { st with requestId := st.requestId + 1 }
  if stdinAvailable then
    ({ st1 with
        pendingRequests := st1.pendingRequests ++ [{ id := id, method := method, timeoutMs := timeoutMs }] },
     id, [])
  else
    (st1, id, [(id, Outcome.transport)])

/-- The events the single-threaded loop can deliver to one manager:
a stdout data chunk, a timer firing, or another interleaved sendRequest. -/
inductive Event where
  | deliver : String → Event
  | fire : Int → Event
  | send : String → Int → Bool → Bool → Event
deriving DecidableEq, Repr

/-- One loop turn. -/
def stepEv (st : PythonRequestManager) (e : Event) :
    PythonRequestManager × List (Int × Outcome) :=
  match e with
  | Event.deliver c => handleResponse st c
  | Event.fire id => fireTimeout st id
  | Event.send m t a w =>
    let r := sendRequest st m t a w
    (r.1, r.2.2)

/-- Run a sequence of events, concatenating the settlement logs. -/
def runEvents (st : PythonRequestManager) (evs : List Event) :
    PythonRequestManager × List (Int × Outcome) :=
  match evs with
  | [] => (st, [])
  | e :: rest =>
    let r := stepEv st e
    let r2 := runEvents r.1 rest
    (r2.1, r.2 ++ r2.2)

/-- Run a sequence of already-decoded responses through dispatch. -/
def runDispatch (st : PythonRequestManager) (rs : List JVal) :
    PythonRequestManager × List (Int × Outcome) :=
  match rs with
  | [] => (st, [])
  | r :: rest =>
    let r1 := dispatchResponse st r
    let r2 := runDispatch r1.1 rest
    (r2.1, r1.2 ++ r2.2)

/-- The inbound success envelope for call i carrying value v, as parsed. -/
def respEnvelope (i : Int) (v : JVal) : JVal :=
  JVal.jobj [("jsonrpc", JVal.jstr "2.0"), ("id", JVal.jnum i), ("result", v)]

/-- How many entries of a settlement log settle the call with this id. -/
def settleCount (id : Int) (log : List (Int × Outcome)) : Nat :=
  (log.filter (fun s => s.1 == id)).length

/-- All pending ids lie below the allocator: established by the
constructor (empty map, requestId 1) and preserved by every operation. -/
def IdsBelowNext (st : PythonRequestManager) : Prop :=
  ∀ p ∈ st.pendingRequests, p.id < st.requestId

/-- The per-call invariant carried along a run: ids stay below the
allocator, the tracked id was already allocated, and the call is either
still pending with no settlement yet, or no longer pending with exactly
one settlement in the log so far. -/
def CallInv (id : Int) (st : PythonRequestManager) (cnt : Nat) : Prop :=
  IdsBelowNext st ∧ id < st.requestId ∧
    ((id ∈ pendIds st ∧ cnt = 0) ∨ (id ∉ pendIds st ∧ cnt = 1))

/-- The observable side of a child process handle: the killed flag. -/
structure Proc where
  killed : Bool
deriving DecidableEq, Repr

/-- The module-level globals of the extension entry file: the current
worker process handle and the manager bound to it, each possibly null. -/
structure GlobalState where
  pythonProcess : Option Proc
  requestManager : Option PythonRequestManager
deriving DecidableEq, Repr

/-- The exit observer attached by startPythonProcess: on process
termination for any reason it nulls both globals. It performs no
settlement on the calls still pending in the bound manager. -/
def onProcessExit (_g : GlobalState) : GlobalState :=
  { pythonProcess := none, requestManager := none }

/-- startPythonProcess: reuse the current process when it is set and not
killed; otherwise spawn a fresh live one and store it. Returns the updated
globals and the handle handed to the caller. -/
def startPythonProcess (g : GlobalState) : GlobalState × Proc :=
  match g.pythonProcess with
  | some p =>
    if p.killed then ({ g with pythonProcess := some { killed := false } }, { killed := false })
    else (g, p)
  | none => ({ g with pythonProcess := some { killed := false } }, { killed := false })

/-- The reset branch of getRequestManager: null the manager, ensure a
process via startPythonProcess, construct a fresh PythonRequestManager on
it and store it. -/
def getRequestManagerFresh (g : GlobalState) : GlobalState × PythonRequestManager :=
  let g2 := (startPythonProcess { g with requestManager := none }).1
  ({ g2 with requestManager := some PythonRequestManager.init }, PythonRequestManager.init)

/-- getRequestManager: keep the current manager only when both it and a
live process exist; otherwise rebuild both. -/
def getRequestManager (g : GlobalState) : GlobalState × PythonRequestManager :=
  match g.requestManager, g.pythonProcess with
  | some mgr, some p => if p.killed then getRequestManagerFresh g else (g, mgr)
  | some _, none => getRequestManagerFresh g
  | none, _ => getRequestManagerFresh g

/-- deactivate: kill the process when set and not yet killed, then null
both globals. Nothing is settled and no timer of the abandoned manager is
cleared. -/
def deactivate (_g : GlobalState) : GlobalState :=
  { pythonProcess := none, requestManager := none }

/-- The ways a promise of the legacy sendToPython can settle. -/
inductive LegacyOutcome where
  | result : JVal → LegacyOutcome
  | rpcError : JVal → LegacyOutcome
  | malformed : LegacyOutcome
  | parseFailure : LegacyOutcome
  | noStdout : LegacyOutcome
  | noStdin : LegacyOutcome
deriving Repr

/-- One per-call stdout listener of the legacy path: the token identifies
the promise it settles (registration order), id is the request id the call
sent (Date.now() at issue time), method the requested method. -/
structure LegacyCall where
  token : Nat
  id : Int
  method : String
deriving DecidableEq, Repr

/-- The legacy per-call listeners registered on the worker stdout, in
registration order, plus the token counter of the model. -/
structure LegacyState where
  listeners : List LegacyCall
  nextToken : Nat
deriving DecidableEq, Repr

/-- How the legacy dataHandler settles its promise from a parsed response:
resolve on a present result field, reject with the error payload when the
error field is truthy, reject with the fixed string otherwise. The
response id field is read nowhere. -/
def legacyOutcome (response : JVal) : LegacyOutcome :=
  match getField response "result" with
  | some v => LegacyOutcome.result v
  | none =>
    match getField response "error" with
    | some e => if truthy e then LegacyOutcome.rpcError e else LegacyOutcome.malformed
    | none => LegacyOutcome.malformed

/-- The legacy sendToPython: build a request whose id is Date.now() (the
now argument), register a fresh dataHandler on stdout, then write to
stdin. Missing stdout rejects without registering; missing stdin rejects
after registering, leaving the handler attached. Returns the new state,
the token of the issued call and the synchronous settlements. -/
def sendToPython (st : LegacyState) (now : Int) (method : String)
    (stdoutAvailable : Bool) (stdinAvailable : Bool) :
    LegacyState × Nat × List (Nat × LegacyOutcome) :=
  let token := st.nextToken
  if stdoutAvailable then
    let st2 : LegacyState :=
      { listeners := st.listeners ++ [{ token := token, id := now, method := method }],
        nextToken := st.nextToken + 1 }
    if stdinAvailable then (st2, token, [])
    else (st2, token, [(token, LegacyOutcome.noStdin)])
  else
    ({ st with nextToken := st.nextToken + 1 }, token, [(token, LegacyOutcome.noStdout)])

/-- A stdout data event on the legacy path, delivered to every listener
registered at emit time. A listener that parses the chunk removes itself
and settles from the parsed response, never comparing the response id with
its own request id; a listener whose parse fails rejects without removing
itself. -/
def legacyDeliver (st : LegacyState) (data : String) :
    LegacyState × List (Nat × LegacyOutcome) :=
  match jsonParse data with
  | none => (st, st.listeners.map (fun c => (c.token, LegacyOutcome.parseFailure)))
  | some response =>
    ({ st with listeners := [] },
     st.listeners.map (fun c => (c.token, legacyOutcome response)))

/-- The empty legacy state. -/
def LegacyState.init : LegacyState :=
  { listeners := [], nextToken := 0 }

theorem settleCount_append (id : Int) (a b : List (Int × Outcome)) :
    settleCount id (a ++ b) = settleCount id a + settleCount id b := by
  simp [settleCount, List.filter_append]

theorem settleCount_nil (id : Int) : settleCount id [] = 0 := rfl

theorem settleCount_single (id m : Int) (o : Outcome) :
    settleCount id [(m, o)] = if m = id then 1 else 0 := by
  by_cases h : m = id <;> simp [settleCount, h]

theorem find?_pend_eq_some {l : List PendingRequest} {n : Int} {pr : PendingRequest}
    (h : l.find? (fun p => p.id == n) = some pr) : pr.id = n ∧ pr ∈ l := by
  have h1 := List.find?_some h
  have h2 := List.mem_of_find?_eq_some h
  exact ⟨by simpa using h1, h2⟩

theorem find?_pend_isSome {l : List PendingRequest} {n : Int}
    (h : n ∈ l.map (fun p => p.id)) :
    ∃ pr, l.find? (fun p => p.id == n) = some pr := by
  rcases List.mem_map.mp h with ⟨p, hp, hid⟩
  have : (l.find? (fun p => p.id == n)).isSome := by
    rw [List.find?_isSome]
    exact ⟨p, hp, by simp [hid]⟩
  exact Option.isSome_iff_exists.mp this

theorem find?_pend_none {l : List PendingRequest} {n : Int}
    (h : n ∉ l.map (fun p => p.id)) :
    l.find? (fun p => p.id == n) = none := by
  rw [List.find?_eq_none]
  intro p hp
  simp only [beq_iff_eq]
  intro hpn
  exact h (List.mem_map.mpr ⟨p, hp, hpn⟩)

theorem mem_pend_filter {l : List PendingRequest} {n i : Int} :
    (i ∈ (l.filter (fun q => !(q.id == n))).map (fun p => p.id)) ↔
      (i ∈ l.map (fun p => p.id)) ∧ i ≠ n := by
  constructor
  · intro h
    rcases List.mem_map.mp h with ⟨p, hp, hid⟩
    rcases List.mem_filter.mp hp with ⟨hpl, hpn⟩
    refine ⟨List.mem_map.mpr ⟨p, hpl, hid⟩, ?_⟩
    intro hin
    rw [← hid] at hin
    simp [hin] at hpn
  · rintro ⟨h, hne⟩
    rcases List.mem_map.mp h with ⟨p, hp, hid⟩
    exact List.mem_map.mpr ⟨p, List.mem_filter.mpr ⟨hp, by simp [hid, hne]⟩, hid⟩

theorem requestId_not_pending {st : PythonRequestManager} (h : IdsBelowNext st) :
    st.requestId ∉ pendIds st := by
  intro hmem
  rcases List.mem_map.mp hmem with ⟨p, hp, hid⟩
  have := h p hp
  omega

theorem dispatchResponse_shape (st : PythonRequestManager) (r : JVal) :
    dispatchResponse st r = (st, []) ∨
    ∃ n pr o,
      st.pendingRequests.find? (fun p => p.id == n) = some pr ∧
      dispatchResponse st r =
        ({ st with pendingRequests := st.pendingRequests.filter (fun q => !(q.id == n)) },
         [(pr.id, o)]) := by
  cases hid : getField r "id" with
  | none => left; simp [dispatchResponse, hid]
  | some v =>
    cases v with
    | jnum n =>
      cases hfind : st.pendingRequests.find? (fun p => p.id == n) with
      | none => left; simp [dispatchResponse, hid, hfind]
      | some pr =>
        right
        refine ⟨n, pr, ?_⟩
        cases hres : getField r "result" with
        | some v2 =>
          exact ⟨Outcome.result v2, hfind, by simp [dispatchResponse, hid, hfind, hres]⟩
        | none =>
          cases herr : getField r "error" with
          | some e =>
            by_cases ht : truthy e
            · exact ⟨Outcome.rpcError e, hfind,
                by simp [dispatchResponse, hid, hfind, hres, herr, ht]⟩
            · exact ⟨Outcome.malformed, hfind,
                by simp [dispatchResponse, hid, hfind, hres, herr, ht]⟩
          | none =>
            exact ⟨Outcome.malformed, hfind,
              by simp [dispatchResponse, hid, hfind, hres, herr]⟩
    | jnull => left; simp [dispatchResponse, hid]
    | jbool b => left; simp [dispatchResponse, hid]
    | jstr s => left; simp [dispatchResponse, hid]
    | jarr xs => left; simp [dispatchResponse, hid]
    | jobj fs => left; simp [dispatchResponse, hid]

theorem callInv_settle {id m : Int} {st st2 : PythonRequestManager} {o : Outcome} {cnt : Nat}
    (h : CallInv id st cnt) (hm : m ∈ pendIds st)
    (hpend : st2.pendingRequests = st.pendingRequests.filter (fun q => !(q.id == m)))
    (hrid : st2.requestId = st.requestId) :
    CallInv id st2 (cnt + settleCount id [(m, o)]) := by
  obtain ⟨hb, hlt, hdisj⟩ := h
  refine ⟨?_, by rw [hrid]; exact hlt, ?_⟩
  · intro p hp
    rw [hpend] at hp
    rw [hrid]
    exact hb p (List.mem_filter.mp hp).1
  · rw [settleCount_single]
    by_cases hmi : m = id
    · subst hmi
      rcases hdisj with ⟨hin, hc⟩ | ⟨hout, hc⟩
      · right
        refine ⟨?_, by simp [hc]⟩
        simp only [pendIds, hpend]
        intro hcontra
        exact (mem_pend_filter.mp hcontra).2 rfl
      · exact absurd hm hout
    · simp only [if_neg hmi, Nat.add_zero]
      rcases hdisj with ⟨hin, hc⟩ | ⟨hout, hc⟩
      · left
        refine ⟨?_, hc⟩
        simp only [pendIds, hpend]
        exact mem_pend_filter.mpr ⟨hin, fun he => hmi (he.symm ▸ rfl)⟩
      · right
        refine ⟨?_, hc⟩
        simp only [pendIds, hpend]
        intro hcontra
        exact hout (mem_pend_filter.mp hcontra).1

theorem handleResponse_parse_none {st : PythonRequestManager} {c : String}
    (h : jsonParse c = none) : handleResponse st c = (st, []) := by
  simp [handleResponse, h]

theorem handleResponse_parse_some {st : PythonRequestManager} {c : String} {r : JVal}
    (h : jsonParse c = some r) : handleResponse st c = dispatchResponse st r := by
  simp [handleResponse, h]

theorem callInv_step {id : Int} {st : PythonRequestManager} {cnt : Nat} (e : Event)
    (h : CallInv id st cnt) :
    CallInv id (stepEv st e).1 (cnt + settleCount id (stepEv st e).2) := by
  cases e with
  | deliver c =>
    simp only [stepEv]
    cases hp : jsonParse c with
    | none => rw [handleResponse_parse_none hp]; simpa [settleCount] using h
    | some r =>
      rw [handleResponse_parse_some hp]
      rcases dispatchResponse_shape st r with hsh | ⟨n, pr, o, hfind, hsh⟩
      · rw [hsh]; simpa [settleCount] using h
      · rw [hsh]
        obtain ⟨hpn, hprm⟩ := find?_pend_eq_some hfind
        have hmem : n ∈ pendIds st := List.mem_map.mpr ⟨pr, hprm, hpn⟩
        rw [hpn]
        exact callInv_settle h hmem rfl rfl
  | fire fid =>
    simp only [stepEv, fireTimeout]
    cases hfind : st.pendingRequests.find? (fun p => p.id == fid) with
    | none => simpa [settleCount] using h
    | some pr =>
      obtain ⟨hpn, hprm⟩ := find?_pend_eq_some hfind
      have hmem : fid ∈ pendIds st := List.mem_map.mpr ⟨pr, hprm, hpn⟩
      exact callInv_settle h hmem rfl rfl
  | send m t a w =>
    obtain ⟨hb, hlt, hdisj⟩ := h
    have hne : id ≠ st.requestId := by omega
    cases a with
    | true =>
      refine ⟨?_, ?_, ?_⟩
      · intro p hp
        have hp2 : p ∈ st.pendingRequests ++
            [{ id := st.requestId, method := m, timeoutMs := t }] := hp
        show p.id < st.requestId + 1
        rcases List.mem_append.mp hp2 with hpl | hpr
        · have := hb p hpl; omega
        · have hpe : p = { id := st.requestId, method := m, timeoutMs := t } :=
            List.mem_singleton.mp hpr
          rw [hpe]
          show st.requestId < st.requestId + 1
          omega
      · show id < st.requestId + 1
        omega
      · have hpe : id ∈ pendIds (stepEv st (Event.send m t true w)).1 ↔ id ∈ pendIds st := by
          show id ∈ (st.pendingRequests ++
              [({ id := st.requestId, method := m, timeoutMs := t } : PendingRequest)]).map
                (fun p => p.id) ↔ id ∈ pendIds st
          simp [pendIds, hne]
        have hsc : settleCount id (stepEv st (Event.send m t true w)).2 = 0 := rfl
        rw [hsc, Nat.add_zero]
        rcases hdisj with ⟨hin, hc⟩ | ⟨hout, hc⟩
        · left; exact ⟨hpe.mpr hin, hc⟩
        · right; exact ⟨fun hco => hout (hpe.mp hco), hc⟩
    | false =>
      refine ⟨?_, ?_, ?_⟩
      · intro p hp
        have hp2 : p ∈ st.pendingRequests := hp
        have := hb p hp2
        show p.id < st.requestId + 1
        omega
      · show id < st.requestId + 1
        omega
      · rw [show (stepEv st (Event.send m t false w)).2 = [(st.requestId, Outcome.transport)]
            from rfl, settleCount_single, if_neg (by omega), Nat.add_zero]
        have hpe : id ∈ pendIds (stepEv st (Event.send m t false w)).1 ↔ id ∈ pendIds st :=
          Iff.rfl
        rcases hdisj with ⟨hin, hc⟩ | ⟨hout, hc⟩
        · left; exact ⟨hpe.mpr hin, hc⟩
        · right; exact ⟨fun hco => hout (hpe.mp hco), hc⟩

theorem callInv_run {id : Int} {st : PythonRequestManager} {cnt : Nat} (evs : List Event)
    (h : CallInv id st cnt) :
    CallInv id (runEvents st evs).1 (cnt + settleCount id (runEvents st evs).2) := by
  induction evs generalizing st cnt with
  | nil => simpa using h
  | cons e rest ih =>
    simp only [runEvents]
    rw [settleCount_append, ← Nat.add_assoc]
    exact ih (callInv_step e h)

theorem callInv_fire_done {id : Int} {st : PythonRequestManager} {cnt : Nat} (evs : List Event)
    (h : CallInv id st cnt) (hf : Event.fire id ∈ evs) :
    cnt + settleCount id (runEvents st evs).2 = 1 := by
  induction evs generalizing st cnt with
  | nil => cases hf
  | cons e rest ih =>
    simp only [runEvents]
    rw [settleCount_append, ← Nat.add_assoc]
    rcases List.mem_cons.mp hf with heq | hmem
    · subst heq
      have hdone : cnt + settleCount id (stepEv st (Event.fire id)).2 = 1 := by
        obtain ⟨hb, hlt, hdisj⟩ := h
        rcases hdisj with ⟨hin, hc⟩ | ⟨hout, hc⟩
        · rcases find?_pend_isSome hin with ⟨pr, hfind⟩
          simp [stepEv, fireTimeout, hfind, settleCount_single, hc]
        · simp [stepEv, fireTimeout, find?_pend_none hout, hc, settleCount]
      have h3 := callInv_run rest (callInv_step (Event.fire id) h)
      rcases h3.2.2 with ⟨_, hc0⟩ | ⟨_, hc1⟩
      · omega
      · omega
    · exact ih (callInv_step e h) hmem

/-- Claim C1: for every call issued through sendRequest and for every
sequence of inbound chunks (arbitrarily interleaved, reordered or
duplicated), timer firings and further sends, the settlement log contains
at most one entry for that call, and exactly one once its timer has fired
or the transport was already unavailable at send time; the single entry is
one of the five terminal outcomes (result, RPC error, malformed response,
timeout, transport), these being the only constructors a manager
settlement can carry. -/
theorem sendRequest_settles_exactly_once
    (st0 : PythonRequestManager) (hInv : IdsBelowNext st0)
    (method : String) (timeoutMs : Int) (avail wOk : Bool) (evs : List Event) :
    settleCount (sendRequest st0 method timeoutMs avail wOk).2.1
        ((sendRequest st0 method timeoutMs avail wOk).2.2 ++
          (runEvents (sendRequest st0 method timeoutMs avail wOk).1 evs).2) ≤ 1 ∧
    ((avail = false ∨ Event.fire (sendRequest st0 method timeoutMs avail wOk).2.1 ∈ evs) →
      settleCount (sendRequest st0 method timeoutMs avail wOk).2.1
        ((sendRequest st0 method timeoutMs avail wOk).2.2 ++
          (runEvents (sendRequest st0 method timeoutMs avail wOk).1 evs).2) = 1) := by
  cases avail with
  | true =>
    have hid : (sendRequest st0 method timeoutMs true wOk).2.1 = st0.requestId := rfl
    have hinv1 : CallInv st0.requestId (sendRequest st0 method timeoutMs true wOk).1 0 := by
      refine ⟨?_, ?_, Or.inl ⟨?_, rfl⟩⟩
      · intro p hp
        have hp2 : p ∈ st0.pendingRequests ++
            [({ id := st0.requestId, method := method, timeoutMs := timeoutMs } :
              PendingRequest)] := hp
        show p.id < st0.requestId + 1
        rcases List.mem_append.mp hp2 with hl | hr
        · have := hInv p hl; omega
        · rw [List.mem_singleton.mp hr]
          show st0.requestId < st0.requestId + 1
          omega
      · show st0.requestId < st0.requestId + 1
        omega
      · show st0.requestId ∈ (st0.pendingRequests ++
            [({ id := st0.requestId, method := method, timeoutMs := timeoutMs } :
              PendingRequest)]).map (fun p => p.id)
        simp
    have e1 : (sendRequest st0 method timeoutMs true wOk).2.2 ++
        (runEvents (sendRequest st0 method timeoutMs true wOk).1 evs).2 =
        (runEvents (sendRequest st0 method timeoutMs true wOk).1 evs).2 := by
      rw [show (sendRequest st0 method timeoutMs true wOk).2.2 =
          ([] : List (Int × Outcome)) from rfl, List.nil_append]
    have hrun := callInv_run evs hinv1
    constructor
    · rw [hid, e1]
      rcases hrun.2.2 with ⟨_, hc⟩ | ⟨_, hc⟩ <;> omega
    · intro hcond
      rw [hid, e1]
      rcases hcond with habs | hf
      · cases habs
      · rw [hid] at hf
        have := callInv_fire_done evs hinv1 hf
        omega
  | false =>
    have hid : (sendRequest st0 method timeoutMs false wOk).2.1 = st0.requestId := rfl
    have hinv1 : CallInv st0.requestId (sendRequest st0 method timeoutMs false wOk).1 1 := by
      refine ⟨?_, ?_, Or.inr ⟨?_, rfl⟩⟩
      · intro p hp
        have hp2 : p ∈ st0.pendingRequests := hp
        have := hInv p hp2
        show p.id < st0.requestId + 1
        omega
      · show st0.requestId < st0.requestId + 1
        omega
      · show st0.requestId ∉ st0.pendingRequests.map (fun p => p.id)
        exact requestId_not_pending hInv
    have hrun := callInv_run evs hinv1
    have e1 : settleCount st0.requestId
        ((sendRequest st0 method timeoutMs false wOk).2.2 ++
          (runEvents (sendRequest st0 method timeoutMs false wOk).1 evs).2) =
        1 + settleCount st0.requestId
          (runEvents (sendRequest st0 method timeoutMs false wOk).1 evs).2 := by
      rw [settleCount_append]
      congr 1
      rw [show (sendRequest st0 method timeoutMs false wOk).2.2 =
          [(st0.requestId, Outcome.transport)] from rfl, settleCount_single, if_pos rfl]
    constructor
    · rw [hid, e1]
      rcases hrun.2.2 with ⟨_, hc⟩ | ⟨_, hc⟩ <;> omega
    · intro _
      rw [hid, e1]
      rcases hrun.2.2 with ⟨_, hc⟩ | ⟨_, hc⟩ <;> omega

/-- Witness for C1: a concrete run from the initial manager in which the
call is sent, no response arrives and the timer fires. -/
theorem sendRequest_settles_exactly_once_witness :
    IdsBelowNext PythonRequestManager.init ∧
    (settleCount (sendRequest PythonRequestManager.init "say_hello" 3000 true true).2.1
        ((sendRequest PythonRequestManager.init "say_hello" 3000 true true).2.2 ++
          (runEvents (sendRequest PythonRequestManager.init "say_hello" 3000 true true).1
            [Event.fire 1]).2) ≤ 1 ∧
      ((true = false ∨
          Event.fire (sendRequest PythonRequestManager.init "say_hello" 3000 true true).2.1 ∈
            [Event.fire 1]) →
        settleCount (sendRequest PythonRequestManager.init "say_hello" 3000 true true).2.1
          ((sendRequest PythonRequestManager.init "say_hello" 3000 true true).2.2 ++
            (runEvents (sendRequest PythonRequestManager.init "say_hello" 3000 true true).1
              [Event.fire 1]).2) = 1)) :=
  ⟨fun p hp => absurd hp (List.not_mem_nil p),
    sendRequest_settles_exactly_once PythonRequestManager.init
      (fun p hp => absurd hp (List.not_mem_nil p)) "say_hello" 3000 true true [Event.fire 1]⟩

theorem stepEv_requestId_mono (st : PythonRequestManager) (e : Event) :
    st.requestId ≤ (stepEv st e).1.requestId := by
  cases e with
  | deliver c =>
    simp only [stepEv]
    cases hp : jsonParse c with
    | none => rw [handleResponse_parse_none hp]
    | some r =>
      rw [handleResponse_parse_some hp]
      rcases dispatchResponse_shape st r with hsh | ⟨n, pr, o, hfind, hsh⟩ <;>
        rw [hsh] <;> exact le_refl _
  | fire fid =>
    simp only [stepEv, fireTimeout]
    cases hfind : st.pendingRequests.find? (fun p => p.id == fid) with
    | none => exact le_refl _
    | some pr => exact le_refl _
  | send m t a w =>
    cases a with
    | true => show st.requestId ≤ st.requestId + 1; omega
    | false => show st.requestId ≤ st.requestId + 1; omega

theorem runEvents_requestId_mono (st : PythonRequestManager) (evs : List Event) :
    st.requestId ≤ (runEvents st evs).1.requestId := by
  induction evs generalizing st with
  | nil => exact le_refl _
  | cons e rest ih => exact le_trans (stepEv_requestId_mono st e) (ih _)

theorem idsBelowNext_step {st : PythonRequestManager} (e : Event) (h : IdsBelowNext st) :
    IdsBelowNext (stepEv st e).1 := by
  cases e with
  | deliver c =>
    simp only [stepEv]
    cases hp : jsonParse c with
    | none => rw [handleResponse_parse_none hp]; exact h
    | some r =>
      rw [handleResponse_parse_some hp]
      rcases dispatchResponse_shape st r with hsh | ⟨n, pr, o, hfind, hsh⟩
      · rw [hsh]; exact h
      · rw [hsh]
        intro p hp2
        exact h p (List.mem_filter.mp hp2).1
  | fire fid =>
    simp only [stepEv, fireTimeout]
    cases hfind : st.pendingRequests.find? (fun p => p.id == fid) with
    | none => exact h
    | some pr =>
      intro p hp2
      exact h p (List.mem_filter.mp hp2).1
  | send m t a w =>
    cases a with
    | true =>
      intro p hp
      have hp2 : p ∈ st.pendingRequests ++
          [({ id := st.requestId, method := m, timeoutMs := t } : PendingRequest)] := hp
      show p.id < st.requestId + 1
      rcases List.mem_append.mp hp2 with hl | hr
      · have := h p hl; omega
      · rw [List.mem_singleton.mp hr]
        show st.requestId < st.requestId + 1
        omega
    | false =>
      intro p hp
      have hp2 : p ∈ st.pendingRequests := hp
      have := h p hp2
      show p.id < st.requestId + 1
      omega

theorem idsBelowNext_run {st : PythonRequestManager} (evs : List Event) (h : IdsBelowNext st) :
    IdsBelowNext (runEvents st evs).1 := by
  induction evs generalizing st with
  | nil => exact h
  | cons e rest ih => exact ih (idsBelowNext_step e h)

theorem dispatch_resolves_own (st : PythonRequestManager) (i : Int) (v : JVal)
    (h : i ∈ pendIds st) :
    dispatchResponse st (respEnvelope i v) =
      ({ st with pendingRequests := st.pendingRequests.filter (fun q => !(q.id == i)) },
        [(i, Outcome.result v)]) := by
  have hid : getField (respEnvelope i v) "id" = some (JVal.jnum i) := rfl
  have hres : getField (respEnvelope i v) "result" = some v := rfl
  rcases find?_pend_isSome h with ⟨pr, hfind⟩
  have hpi : pr.id = i := (find?_pend_eq_some hfind).1
  simp [dispatchResponse, hid, hres, hfind, hpi]

theorem runDispatch_perm (f : Int → JVal) :
    ∀ (L : List Int) (st : PythonRequestManager), L.Nodup → (∀ i ∈ L, i ∈ pendIds st) →
      (runDispatch st (L.map (fun i => respEnvelope i (f i)))).2 =
        L.map (fun i => (i, Outcome.result (f i)))
  | [], _, _, _ => rfl
  | i :: rest, st, hnd, hmem => by
    have hi : i ∈ pendIds st := hmem i (List.mem_cons_self i rest)
    simp only [List.map_cons, runDispatch]
    rw [dispatch_resolves_own st i (f i) hi]
    have hmem2 : ∀ j ∈ rest, j ∈ pendIds
        { st with pendingRequests := st.pendingRequests.filter (fun q => !(q.id == i)) } := by
      intro j hj
      have hji : j ≠ i := fun he => (List.nodup_cons.mp hnd).1 (he ▸ hj)
      have hjm := hmem j (List.mem_cons_of_mem i hj)
      show j ∈ (st.pendingRequests.filter (fun q => !(q.id == i))).map (fun p => p.id)
      exact mem_pend_filter.mpr ⟨hjm, hji⟩
    rw [runDispatch_perm f rest _ (List.nodup_cons.mp hnd).2 hmem2]
    simp

/-- Claim C2: sendRequest allocates the current requestId, which is never
an id still pending; any later allocation, after arbitrary interleaved
events, yields a strictly larger identifier that is again not pending; and
for any set of concurrently pending calls with distinct identifiers,
delivering their response envelopes in any permutation settles each call
with exactly its own result and nothing else. -/
theorem sendRequest_correlation_correct
    (st0 : PythonRequestManager) (hInv : IdsBelowNext st0) :
    (∀ method timeoutMs avail wOk,
      (sendRequest st0 method timeoutMs avail wOk).2.1 = st0.requestId ∧
      st0.requestId ∉ pendIds st0) ∧
    (∀ method timeoutMs avail wOk evs method2 timeoutMs2 avail2 wOk2,
      (sendRequest st0 method timeoutMs avail wOk).2.1 <
        (sendRequest (runEvents (sendRequest st0 method timeoutMs avail wOk).1 evs).1
          method2 timeoutMs2 avail2 wOk2).2.1 ∧
      (sendRequest (runEvents (sendRequest st0 method timeoutMs avail wOk).1 evs).1
          method2 timeoutMs2 avail2 wOk2).2.1 ∉
        pendIds (runEvents (sendRequest st0 method timeoutMs avail wOk).1 evs).1) ∧
    (∀ (f : Int → JVal) (L : List Int), L.Nodup → (∀ i ∈ L, i ∈ pendIds st0) →
      (runDispatch st0 (L.map (fun i => respEnvelope i (f i)))).2 =
        L.map (fun i => (i, Outcome.result (f i)))) := by
  refine ⟨?_, ?_, ?_⟩
  · intro method timeoutMs avail wOk
    exact ⟨by cases avail <;> rfl, requestId_not_pending hInv⟩
  · intro method timeoutMs avail wOk evs method2 timeoutMs2 avail2 wOk2
    have h1 : IdsBelowNext (sendRequest st0 method timeoutMs avail wOk).1 :=
      idsBelowNext_step (Event.send method timeoutMs avail wOk) hInv
    have h2 : IdsBelowNext (runEvents (sendRequest st0 method timeoutMs avail wOk).1 evs).1 :=
      idsBelowNext_run evs h1
    have h3 := runEvents_requestId_mono (sendRequest st0 method timeoutMs avail wOk).1 evs
    have e1 : (sendRequest st0 method timeoutMs avail wOk).2.1 = st0.requestId := by
      cases avail <;> rfl
    have e2 : (sendRequest st0 method timeoutMs avail wOk).1.requestId = st0.requestId + 1 := by
      cases avail <;> rfl
    have e3 : (sendRequest (runEvents (sendRequest st0 method timeoutMs avail wOk).1 evs).1
        method2 timeoutMs2 avail2 wOk2).2.1 =
        (runEvents (sendRequest st0 method timeoutMs avail wOk).1 evs).1.requestId := by
      cases avail2 <;> rfl
    rw [e2] at h3
    constructor
    · rw [e1, e3]
      omega
    · rw [e3]
      exact requestId_not_pending h2
  · intro f L hnd hmem
    exact runDispatch_perm f L st0 hnd hmem

/-- Witness for C2: a manager with two pending calls (ids 1 and 2,
allocator at 3) and responses delivered in reversed order. -/
theorem sendRequest_correlation_correct_witness :
    IdsBelowNext
      { pendingRequests :=
          [{ id := 1, method := "say_hello", timeoutMs := 3000 },
           { id := 2, method := "process_path", timeoutMs := 10000 }],
        requestId := 3 } ∧
    ((∀ method timeoutMs avail wOk,
      (sendRequest
          { pendingRequests :=
              [{ id := 1, method := "say_hello", timeoutMs := 3000 },
               { id := 2, method := "process_path", timeoutMs := 10000 }],
            requestId := 3 } method timeoutMs avail wOk).2.1 =
        (3 : Int) ∧
      (3 : Int) ∉ pendIds
        { pendingRequests :=
            [{ id := 1, method := "say_hello", timeoutMs := 3000 },
             { id := 2, method := "process_path", timeoutMs := 10000 }],
          requestId := 3 }) ∧
    (∀ method timeoutMs avail wOk evs method2 timeoutMs2 avail2 wOk2,
      (sendRequest
          { pendingRequests :=
              [{ id := 1, method := "say_hello", timeoutMs := 3000 },
               { id := 2, method := "process_path", timeoutMs := 10000 }],
            requestId := 3 } method timeoutMs avail wOk).2.1 <
        (sendRequest (runEvents (sendRequest
            { pendingRequests :=
                [{ id := 1, method := "say_hello", timeoutMs := 3000 },
                 { id := 2, method := "process_path", timeoutMs := 10000 }],
              requestId := 3 } method timeoutMs avail wOk).1 evs).1
          method2 timeoutMs2 avail2 wOk2).2.1 ∧
      (sendRequest (runEvents (sendRequest
          { pendingRequests :=
              [{ id := 1, method := "say_hello", timeoutMs := 3000 },
               { id := 2, method := "process_path", timeoutMs := 10000 }],
            requestId := 3 } method timeoutMs avail wOk).1 evs).1
          method2 timeoutMs2 avail2 wOk2).2.1 ∉
        pendIds (runEvents (sendRequest
            { pendingRequests :=
                [{ id := 1, method := "say_hello", timeoutMs := 3000 },
                 { id := 2, method := "process_path", timeoutMs := 10000 }],
              requestId := 3 } method timeoutMs avail wOk).1 evs).1) ∧
    (∀ (f : Int → JVal) (L : List Int), L.Nodup →
      (∀ i ∈ L, i ∈ pendIds
        { pendingRequests :=
            [{ id := 1, method := "say_hello", timeoutMs := 3000 },
             { id := 2, method := "process_path", timeoutMs := 10000 }],
          requestId := 3 }) →
      (runDispatch
          { pendingRequests :=
              [{ id := 1, method := "say_hello", timeoutMs := 3000 },
               { id := 2, method := "process_path", timeoutMs := 10000 }],
            requestId := 3 } (L.map (fun i => respEnvelope i (f i)))).2 =
        L.map (fun i => (i, Outcome.result (f i))))) := by
  have hInv : IdsBelowNext
      { pendingRequests :=
          [{ id := 1, method := "say_hello", timeoutMs := 3000 },
           { id := 2, method := "process_path", timeoutMs := 10000 }],
        requestId := 3 } := by
    intro p hp
    rcases List.mem_cons.mp hp with he | hp2
    · rw [he]; decide
    · rw [List.mem_singleton.mp hp2]; decide
  exact ⟨hInv, sendRequest_correlation_correct _ hInv⟩

/-- Claim C6: when an inbound envelope matches a pending call, dispatch
removes the call from the pending set (its timer having been cleared, so
it can no longer fire) and settles it exactly once: resolve with the value
of a present result field; reject with the error payload when the error
field is present and truthy; reject with the generic malformed-response
string when the error field is present but falsy (such as 0 or the empty
string) with no result field, or when both fields are absent. -/
theorem dispatchResponse_settles_matching
    (st : PythonRequestManager) (r : JVal) (n : Int) (pr : PendingRequest)
    (hid : getField r "id" = some (JVal.jnum n))
    (hfind : st.pendingRequests.find? (fun p => p.id == n) = some pr) :
    (dispatchResponse st r).1.pendingRequests =
      st.pendingRequests.filter (fun q => !(q.id == n)) ∧
    (∀ v, getField r "result" = some v →
      (dispatchResponse st r).2 = [(n, Outcome.result v)]) ∧
    (∀ e, getField r "result" = none → getField r "error" = some e → truthy e = true →
      (dispatchResponse st r).2 = [(n, Outcome.rpcError e)]) ∧
    (∀ e, getField r "result" = none → getField r "error" = some e → truthy e = false →
      (dispatchResponse st r).2 = [(n, Outcome.malformed)]) ∧
    (getField r "result" = none → getField r "error" = none →
      (dispatchResponse st r).2 = [(n, Outcome.malformed)]) := by
  have hpi : pr.id = n := (find?_pend_eq_some hfind).1
  cases hres : getField r "result" with
  | some v =>
    refine ⟨by simp [dispatchResponse, hid, hfind, hres], ?_, ?_, ?_, ?_⟩
    · intro v2 hv2
      injection hv2 with hv3
      subst hv3
      simp [dispatchResponse, hid, hfind, hres, hpi]
    · intro e h1 _ _
      simp [hres] at h1
    · intro e h1 _ _
      simp [hres] at h1
    · intro h1 _
      simp [hres] at h1
  | none =>
    cases herr : getField r "error" with
    | some e =>
      cases ht : truthy e with
      | true =>
        refine ⟨by simp [dispatchResponse, hid, hfind, hres, herr, ht], ?_, ?_, ?_, ?_⟩
        · intro v2 hv2
          simp [hres] at hv2
        · intro e2 _ h2 _
          injection h2 with h3
          subst h3
          simp [dispatchResponse, hid, hfind, hres, herr, ht, hpi]
        · intro e2 _ h2 h3
          injection h2 with h4
          subst h4
          rw [ht] at h3
          cases h3
        · intro _ h2
          simp [herr] at h2
      | false =>
        refine ⟨by simp [dispatchResponse, hid, hfind, hres, herr, ht], ?_, ?_, ?_, ?_⟩
        · intro v2 hv2
          simp [hres] at hv2
        · intro e2 _ h2 h3
          injection h2 with h4
          subst h4
          rw [ht] at h3
          cases h3
        · intro e2 _ h2 _
          injection h2 with h4
          subst h4
          simp [dispatchResponse, hid, hfind, hres, herr, ht, hpi]
        · intro _ h2
          simp [herr] at h2
    | none =>
      refine ⟨by simp [dispatchResponse, hid, hfind, hres, herr], ?_, ?_, ?_, ?_⟩
      · intro v2 hv2
        simp [hres] at hv2
      · intro e2 _ h2 _
        simp [herr] at h2
      · intro e2 _ h2 _
        simp [herr] at h2
      · intro _ _
        simp [dispatchResponse, hid, hfind, hres, herr, hpi]

/-- Witness for C6: a response with a falsy error field (0) and no result
field settles the matching call with the generic malformed rejection. -/
theorem dispatchResponse_settles_matching_witness :
    getField (JVal.jobj [("id", JVal.jnum 1), ("error", JVal.jnum 0)]) "id" =
      some (JVal.jnum 1) ∧
    ({ pendingRequests := [{ id := 1, method := "say_hello", timeoutMs := 3000 }],
        requestId := 2 } :
        PythonRequestManager).pendingRequests.find? (fun p => p.id == 1) =
      some { id := 1, method := "say_hello", timeoutMs := 3000 } ∧
    ((dispatchResponse
        { pendingRequests := [{ id := 1, method := "say_hello", timeoutMs := 3000 }],
          requestId := 2 }
        (JVal.jobj [("id", JVal.jnum 1), ("error", JVal.jnum 0)])).1.pendingRequests =
      ({ pendingRequests := [{ id := 1, method := "say_hello", timeoutMs := 3000 }],
          requestId := 2 } :
          PythonRequestManager).pendingRequests.filter (fun q => !(q.id == 1)) ∧
    (∀ v, getField (JVal.jobj [("id", JVal.jnum 1), ("error", JVal.jnum 0)]) "result" =
        some v →
      (dispatchResponse
        { pendingRequests := [{ id := 1, method := "say_hello", timeoutMs := 3000 }],
          requestId := 2 }
        (JVal.jobj [("id", JVal.jnum 1), ("error", JVal.jnum 0)])).2 =
        [(1, Outcome.result v)]) ∧
    (∀ e, getField (JVal.jobj [("id", JVal.jnum 1), ("error", JVal.jnum 0)]) "result" =
        none →
      getField (JVal.jobj [("id", JVal.jnum 1), ("error", JVal.jnum 0)]) "error" = some e →
      truthy e = true →
      (dispatchResponse
        { pendingRequests := [{ id := 1, method := "say_hello", timeoutMs := 3000 }],
          requestId := 2 }
        (JVal.jobj [("id", JVal.jnum 1), ("error", JVal.jnum 0)])).2 =
        [(1, Outcome.rpcError e)]) ∧
    (∀ e, getField (JVal.jobj [("id", JVal.jnum 1), ("error", JVal.jnum 0)]) "result" =
        none →
      getField (JVal.jobj [("id", JVal.jnum 1), ("error", JVal.jnum 0)]) "error" = some e →
      truthy e = false →
      (dispatchResponse
        { pendingRequests := [{ id := 1, method := "say_hello", timeoutMs := 3000 }],
          requestId := 2 }
        (JVal.jobj [("id", JVal.jnum 1), ("error", JVal.jnum 0)])).2 =
        [(1, Outcome.malformed)]) ∧
    (getField (JVal.jobj [("id", JVal.jnum 1), ("error", JVal.jnum 0)]) "result" = none →
      getField (JVal.jobj [("id", JVal.jnum 1), ("error", JVal.jnum 0)]) "error" = none →
      (dispatchResponse
        { pendingRequests := [{ id := 1, method := "say_hello", timeoutMs := 3000 }],
          requestId := 2 }
        (JVal.jobj [("id", JVal.jnum 1), ("error", JVal.jnum 0)])).2 =
        [(1, Outcome.malformed)])) :=
  ⟨rfl, rfl, dispatchResponse_settles_matching _ _ 1 _ rfl rfl⟩

/-- Claim C7: when the timer of a pending call fires before a matching
envelope arrives, the call is removed from the pending set and settled
with the timeout failure naming its identifier, its method and the
configured duration; an envelope carrying that identifier arriving
afterwards is an orphan and changes nothing. -/
theorem timeout_fires_then_orphan
    (st : PythonRequestManager) (i : Int) (pr : PendingRequest)
    (hfind : st.pendingRequests.find? (fun p => p.id == i) = some pr) :
    fireTimeout st i =
      ({ st with pendingRequests := st.pendingRequests.filter (fun q => !(q.id == i)) },
        [(i, Outcome.timeout i pr.method pr.timeoutMs)]) ∧
    (∀ r, getField r "id" = some (JVal.jnum i) →
      dispatchResponse (fireTimeout st i).1 r = ((fireTimeout st i).1, [])) := by
  have h1 : fireTimeout st i =
      ({ st with pendingRequests := st.pendingRequests.filter (fun q => !(q.id == i)) },
        [(i, Outcome.timeout i pr.method pr.timeoutMs)]) := by
    simp [fireTimeout, hfind]
  refine ⟨h1, ?_⟩
  intro r hid
  have hnone : (st.pendingRequests.filter (fun q => !(q.id == i))).find?
      (fun p => p.id == i) = none := by
    rw [List.find?_eq_none]
    intro p hp
    have h2 := (List.mem_filter.mp hp).2
    simpa using h2
  have hst : (fireTimeout st i).1.pendingRequests =
      st.pendingRequests.filter (fun q => !(q.id == i)) := by
    rw [h1]
  simp [dispatchResponse, hid, hst, hnone]

/-- Witness for C7: the only pending call times out, then its late
response is ignored. -/
theorem timeout_fires_then_orphan_witness :
    ({ pendingRequests := [{ id := 1, method := "say_hello", timeoutMs := 3000 }],
        requestId := 2 } :
        PythonRequestManager).pendingRequests.find? (fun p => p.id == 1) =
      some { id := 1, method := "say_hello", timeoutMs := 3000 } ∧
    (fireTimeout
        { pendingRequests := [{ id := 1, method := "say_hello", timeoutMs := 3000 }],
          requestId := 2 } 1 =
      ({ ({ pendingRequests := [{ id := 1, method := "say_hello", timeoutMs := 3000 }],
            requestId := 2 } : PythonRequestManager) with
          pendingRequests :=
            ({ pendingRequests := [{ id := 1, method := "say_hello", timeoutMs := 3000 }],
                requestId := 2 } :
                PythonRequestManager).pendingRequests.filter (fun q => !(q.id == 1)) },
        [(1, Outcome.timeout 1 "say_hello" 3000)]) ∧
    (∀ r, getField r "id" = some (JVal.jnum 1) →
      dispatchResponse
          (fireTimeout
            { pendingRequests := [{ id := 1, method := "say_hello", timeoutMs := 3000 }],
              requestId := 2 } 1).1 r =
        ((fireTimeout
            { pendingRequests := [{ id := 1, method := "say_hello", timeoutMs := 3000 }],
              requestId := 2 } 1).1, []))) :=
  ⟨rfl, timeout_fires_then_orphan
    { pendingRequests := [{ id := 1, method := "say_hello", timeoutMs := 3000 }],
      requestId := 2 } 1
    { id := 1, method := "say_hello", timeoutMs := 3000 } rfl⟩

/-- Claim C9: dispatching an envelope whose identifier matches no pending
call settles nothing and leaves the manager state, hence every other
pending call and its timer, unchanged; the dispatcher is a total function,
so neither an orphan identifier nor an undecodable chunk can throw out of
it. -/
theorem dispatch_orphan_no_effect
    (st : PythonRequestManager) (r : JVal)
    (h : ∀ n, getField r "id" = some (JVal.jnum n) →
      st.pendingRequests.find? (fun p => p.id == n) = none) :
    dispatchResponse st r = (st, []) ∧
    (∀ data, jsonParse data = none → handleResponse st data = (st, [])) := by
  constructor
  · cases hid : getField r "id" with
    | none => simp [dispatchResponse, hid]
    | some v =>
      cases v with
      | jnum n => simp [dispatchResponse, hid, h n hid]
      | jnull => simp [dispatchResponse, hid]
      | jbool b => simp [dispatchResponse, hid]
      | jstr s => simp [dispatchResponse, hid]
      | jarr xs => simp [dispatchResponse, hid]
      | jobj fs => simp [dispatchResponse, hid]
  · intro data hp
    exact handleResponse_parse_none hp

/-- Witness for C9: a response for the unknown identifier 99 leaves a
manager with two pending calls untouched. -/
theorem dispatch_orphan_no_effect_witness :
    (∀ n, getField (JVal.jobj [("id", JVal.jnum 99), ("result", JVal.jstr "late")]) "id" =
        some (JVal.jnum n) →
      ({ pendingRequests :=
            [{ id := 1, method := "say_hello", timeoutMs := 3000 },
             { id := 2, method := "process_path", timeoutMs := 10000 }],
          requestId := 3 } :
          PythonRequestManager).pendingRequests.find? (fun p => p.id == n) = none) ∧
    (dispatchResponse
        { pendingRequests :=
            [{ id := 1, method := "say_hello", timeoutMs := 3000 },
             { id := 2, method := "process_path", timeoutMs := 10000 }],
          requestId := 3 }
        (JVal.jobj [("id", JVal.jnum 99), ("result", JVal.jstr "late")]) =
      ({ pendingRequests :=
            [{ id := 1, method := "say_hello", timeoutMs := 3000 },
             { id := 2, method := "process_path", timeoutMs := 10000 }],
          requestId := 3 }, []) ∧
    (∀ data, jsonParse data = none →
      handleResponse
          { pendingRequests :=
              [{ id := 1, method := "say_hello", timeoutMs := 3000 },
               { id := 2, method := "process_path", timeoutMs := 10000 }],
            requestId := 3 } data =
        ({ pendingRequests :=
              [{ id := 1, method := "say_hello", timeoutMs := 3000 },
               { id := 2, method := "process_path", timeoutMs := 10000 }],
            requestId := 3 }, []))) := by
  have h : ∀ n, getField (JVal.jobj [("id", JVal.jnum 99), ("result", JVal.jstr "late")])
      "id" = some (JVal.jnum n) →
      ({ pendingRequests :=
            [{ id := 1, method := "say_hello", timeoutMs := 3000 },
             { id := 2, method := "process_path", timeoutMs := 10000 }],
          requestId := 3 } :
          PythonRequestManager).pendingRequests.find? (fun p => p.id == n) = none := by
    intro n hn
    have h99 : getField (JVal.jobj [("id", JVal.jnum 99), ("result", JVal.jstr "late")])
        "id" = some (JVal.jnum 99) := rfl
    rw [h99] at hn
    injection hn with h1
    injection h1 with h2
    subst h2
    rfl
  exact ⟨h, dispatch_orphan_no_effect _ _ h⟩

/-- Counterexample to claim C8 as stated: with stdin present but the write
failing, sendRequest settles nothing immediately, leaves the call in the
pending set with its timer armed, and the call later settles as a timeout
rather than a transport failure, while the claim requires an immediate
TransportUnavailable settlement with no pending entry left. The source
never inspects the fate of the write: it passes no callback and installs
no error handler. -/
theorem sendRequest_write_failure_cex :
    (sendRequest PythonRequestManager.init "say_hello" 3000 true false).2.2 = [] ∧
    pendIds (sendRequest PythonRequestManager.init "say_hello" 3000 true false).1 = [1] ∧
    (fireTimeout (sendRequest PythonRequestManager.init "say_hello" 3000 true false).1 1).2 =
      [(1, Outcome.timeout 1 "say_hello" 3000)] :=
  ⟨rfl, rfl, rfl⟩

/-- Claim C8 as amended: when stdin is unavailable at send time the call
settles immediately with the transport failure and the pending set is left
exactly as before, so no entry and no armed timer remain for it; a failing
write on an available stream, however, goes undetected and the call stays
pending with its timer armed. -/
theorem sendRequest_transport_unavailable
    (st : PythonRequestManager) (method : String) (timeoutMs : Int) (wOk : Bool) :
    ((sendRequest st method timeoutMs false wOk).2.2 =
      [((sendRequest st method timeoutMs false wOk).2.1, Outcome.transport)] ∧
     (sendRequest st method timeoutMs false wOk).1.pendingRequests = st.pendingRequests) ∧
    ((sendRequest st method timeoutMs true false).2.2 = [] ∧
     (sendRequest st method timeoutMs true false).1.pendingRequests =
       st.pendingRequests ++
         [{ id := st.requestId, method := method, timeoutMs := timeoutMs }]) :=
  ⟨⟨rfl, rfl⟩, ⟨rfl, rfl⟩⟩

/-- Claim C3 fails on the code: handleResponse keeps no buffer between
deliveries and parses each chunk alone, so the envelope split into the two
chunks of the spec example is dropped entirely — both deliveries parse to
nothing, settle nothing and leave the pending call in place — while the
same envelope arriving in one chunk settles call 1 with the result ok. -/
theorem handleResponse_split_frame_dropped :
    (handleResponse
        { pendingRequests := [{ id := 1, method := "say_hello", timeoutMs := 3000 }],
          requestId := 2 } "\x7b\"jsonrpc\":\"2").2 = [] ∧
    (handleResponse
        (handleResponse
          { pendingRequests := [{ id := 1, method := "say_hello", timeoutMs := 3000 }],
            requestId := 2 } "\x7b\"jsonrpc\":\"2").1
        ".0\",\"id\":1,\"result\":\"ok\"\x7d\n").2 = [] ∧
    (handleResponse
        (handleResponse
          { pendingRequests := [{ id := 1, method := "say_hello", timeoutMs := 3000 }],
            requestId := 2 } "\x7b\"jsonrpc\":\"2").1
        ".0\",\"id\":1,\"result\":\"ok\"\x7d\n").1 =
      { pendingRequests := [{ id := 1, method := "say_hello", timeoutMs := 3000 }],
        requestId := 2 } ∧
    (handleResponse
        { pendingRequests := [{ id := 1, method := "say_hello", timeoutMs := 3000 }],
          requestId := 2 } "\x7b\"jsonrpc\":\"2.0\",\"id\":1,\"result\":\"ok\"\x7d\n").2 =
      [(1, Outcome.result (JVal.jstr "ok"))] :=
  ⟨rfl, rfl, rfl, rfl⟩

/-- Claim C4 fails on the code: deactivate and the exit observer only null
the process and manager globals; neither settles the calls still pending
in the bound manager nor clears their timers, so after teardown a pending
call remains pending and its timer later fires, settling it with a
timeout failure instead of the required immediate Cancelled settlement. -/
theorem deactivate_leaves_pending_unsettled :
    deactivate
        { pythonProcess := some { killed := false },
          requestManager := some
            { pendingRequests := [{ id := 1, method := "say_hello", timeoutMs := 3000 }],
              requestId := 2 } } =
      { pythonProcess := none, requestManager := none } ∧
    onProcessExit
        { pythonProcess := some { killed := false },
          requestManager := some
            { pendingRequests := [{ id := 1, method := "say_hello", timeoutMs := 3000 }],
              requestId := 2 } } =
      { pythonProcess := none, requestManager := none } ∧
    (fireTimeout
        { pendingRequests := [{ id := 1, method := "say_hello", timeoutMs := 3000 }],
          requestId := 2 } 1).2 =
      [(1, Outcome.timeout 1 "say_hello" 3000)] :=
  ⟨rfl, rfl, rfl⟩

/-- Claim C5: the exit observer nulls the worker handle and the bound
manager together, and the next getRequestManager call spawns a fresh live
worker and binds a freshly constructed manager whose pending set is empty,
so no pending call of the old manager is pending in the manager in use
after the swap. -/
theorem worker_swap_invalidates
    (g : GlobalState) (mgrOld : PythonRequestManager)
    (hOld : g.requestManager = some mgrOld) :
    (onProcessExit g).pythonProcess = none ∧
    (onProcessExit g).requestManager = none ∧
    (getRequestManager (onProcessExit g)).1.pythonProcess = some { killed := false } ∧
    (getRequestManager (onProcessExit g)).2 = PythonRequestManager.init ∧
    (∀ i ∈ pendIds mgrOld, i ∉ pendIds (getRequestManager (onProcessExit g)).2) := by
  refine ⟨rfl, rfl, rfl, rfl, ?_⟩
  intro i _ hcontra
  exact absurd hcontra (List.not_mem_nil i)

/-- Witness for C5: a live worker with a manager holding one pending call
dies; the replacement manager pends nothing of it. -/
theorem worker_swap_invalidates_witness :
    ({ pythonProcess := some { killed := false },
       requestManager := some
         { pendingRequests := [{ id := 1, method := "say_hello", timeoutMs := 3000 }],
           requestId := 2 } } : GlobalState).requestManager =
      some { pendingRequests := [{ id := 1, method := "say_hello", timeoutMs := 3000 }],
             requestId := 2 } ∧
    ((onProcessExit
        { pythonProcess := some { killed := false },
          requestManager := some
            { pendingRequests := [{ id := 1, method := "say_hello", timeoutMs := 3000 }],
              requestId := 2 } }).pythonProcess = none ∧
    (onProcessExit
        { pythonProcess := some { killed := false },
          requestManager := some
            { pendingRequests := [{ id := 1, method := "say_hello", timeoutMs := 3000 }],
              requestId := 2 } }).requestManager = none ∧
    (getRequestManager (onProcessExit
        { pythonProcess := some { killed := false },
          requestManager := some
            { pendingRequests := [{ id := 1, method := "say_hello", timeoutMs := 3000 }],
              requestId := 2 } })).1.pythonProcess = some { killed := false } ∧
    (getRequestManager (onProcessExit
        { pythonProcess := some { killed := false },
          requestManager := some
            { pendingRequests := [{ id := 1, method := "say_hello", timeoutMs := 3000 }],
              requestId := 2 } })).2 = PythonRequestManager.init ∧
    (∀ i ∈ pendIds
        { pendingRequests := [{ id := 1, method := "say_hello", timeoutMs := 3000 }],
          requestId := 2 },
      i ∉ pendIds (getRequestManager (onProcessExit
        { pythonProcess := some { killed := false },
          requestManager := some
            { pendingRequests := [{ id := 1, method := "say_hello", timeoutMs := 3000 }],
              requestId := 2 } })).2)) :=
  ⟨rfl, worker_swap_invalidates
    { pythonProcess := some { killed := false },
      requestManager := some
        { pendingRequests := [{ id := 1, method := "say_hello", timeoutMs := 3000 }],
          requestId := 2 } }
    { pendingRequests := [{ id := 1, method := "say_hello", timeoutMs := 3000 }],
      requestId := 2 } rfl⟩

/-- Claim C10: in the legacy path each call registers its own stdout data
listener and the request id is Date.now(), so two calls issued in the same
millisecond carry the same identifier; a single decodable response chunk
then settles every registered call with the same outcome computed without
reading the response id field, so one response settles a call other than
the one it answers. -/
theorem sendToPython_misroutes_responses
    (now : Int) (m1 m2 : String) (data : String) (r : JVal)
    (hr : jsonParse data = some r) :
    (sendToPython LegacyState.init now m1 true true).2.1 = 0 ∧
    (sendToPython (sendToPython LegacyState.init now m1 true true).1
        now m2 true true).2.1 = 1 ∧
    ((sendToPython (sendToPython LegacyState.init now m1 true true).1
        now m2 true true).1.listeners.map (fun c => c.id)) = [now, now] ∧
    (legacyDeliver (sendToPython (sendToPython LegacyState.init now m1 true true).1
        now m2 true true).1 data).2 =
      [(0, legacyOutcome r), (1, legacyOutcome r)] := by
  refine ⟨rfl, rfl, rfl, ?_⟩
  simp [legacyDeliver, hr, sendToPython, LegacyState.init]

/-- Witness for C10: two same-millisecond calls and the worker reply to
the first of them. -/
theorem sendToPython_misroutes_responses_witness :
    jsonParse "\x7b\"jsonrpc\":\"2.0\",\"id\":1700000000000,\"result\":\"Hello, x!\"\x7d\n" =
      some (JVal.jobj
        [("jsonrpc", JVal.jstr "2.0"), ("id", JVal.jnum 1700000000000),
         ("result", JVal.jstr "Hello, x!")]) ∧
    ((sendToPython LegacyState.init 1700000000000 "say_hello" true true).2.1 = 0 ∧
    (sendToPython (sendToPython LegacyState.init 1700000000000 "say_hello" true true).1
        1700000000000 "say_hello" true true).2.1 = 1 ∧
    ((sendToPython (sendToPython LegacyState.init 1700000000000 "say_hello" true true).1
        1700000000000 "say_hello" true true).1.listeners.map (fun c => c.id)) =
      [1700000000000, 1700000000000] ∧
    (legacyDeliver
        (sendToPython (sendToPython LegacyState.init 1700000000000 "say_hello" true true).1
          1700000000000 "say_hello" true true).1
        "\x7b\"jsonrpc\":\"2.0\",\"id\":1700000000000,\"result\":\"Hello, x!\"\x7d\n").2 =
      [(0, legacyOutcome (JVal.jobj
          [("jsonrpc", JVal.jstr "2.0"), ("id", JVal.jnum 1700000000000),
           ("result", JVal.jstr "Hello, x!")])),
       (1, legacyOutcome (JVal.jobj
          [("jsonrpc", JVal.jstr "2.0"), ("id", JVal.jnum 1700000000000),
           ("result", JVal.jstr "Hello, x!")]))]) :=
  ⟨rfl, sendToPython_misroutes_responses 1700000000000 "say_hello" "say_hello"
    "\x7b\"jsonrpc\":\"2.0\",\"id\":1700000000000,\"result\":\"Hello, x!\"\x7d\n"
    (JVal.jobj
      [("jsonrpc", JVal.jstr "2.0"), ("id", JVal.jnum 1700000000000),
       ("result", JVal.jstr "Hello, x!")]) rfl⟩
